import Mathlib

/-!
Verification of the ragrail retrieval core.

A shallow embedding, in Lean 4, of the retrieval core of the ragrail
repository (`src/modules/embedder.py`, `src/modules/retriever.py`,
`src/modules/chromadb_store.py`), together with theorems settling the
frozen claims C1–C10 about it.

Conventions of the embedding:

* Python strings are Lean `String`s.  The Python string primitives used by
  the source (`split('\n')`, `str.split()`, `'\n'.join`, `strip()`,
  `lower()`, `len`, substring membership `in`, `endswith`) are re-implemented
  below by structural recursion over `String.data` (`List Char`), so that
  every definition evaluates inside the kernel.  Each helper's doc comment
  names the Python primitive it models.
* Python floats appear in the source only as relevance scores (sums of the
  literal increments `1.0`, `2.0`, `1.5`) and as vector-space distances
  (only their ordering is ever used).  Scores are represented exactly as
  `Int` in half-point units (`+1.0 → +2`, `+2.0 → +4`, `+1.5 → +3`); this
  is order- and equality-isomorphic to the float scores, which are all
  integer multiples of `0.5` and small enough to be exact floats.
  Distances are likewise `Int`.
* Python's stable `list.sort(key=..., reverse=True)` is modelled by
  Mathlib's `List.insertionSort` with the corresponding non-strict
  "key-greater-or-equal" relation; insertion sort with a non-strict total
  preorder is stable, so it computes the same list as Python's stable sort.
* ChromaDB is an external library; its `collection.add` / `collection.query`
  / `collection.get` / `collection.delete` calls are modelled by their
  documented semantics over an ordered list of stored entries (append,
  filter-by-metadata + k-nearest-by-distance, read-all, filter-out).
-/

/-! ## Python string primitives -/

/-- Python `s.split(sep)` for a one-character separator, over `List Char`:
splits at every occurrence of `c`, keeping empty segments. -/
def splitCharAux (c : Char) : List Char → List Char → List (List Char)
  | [], acc => [acc.reverse]
  | ch :: rest, acc =>
      if ch = c then acc.reverse :: splitCharAux c rest []
      else splitCharAux c rest (ch :: acc)

/-- Python `code.split('\n')`. -/
def splitLines (s : String) : List String :=
  (splitCharAux '\n' s.data []).map String.mk

/-- Python `'\n'.join(parts)`. -/
def joinLines : List String → String
  | [] => ""
  | [x] => x
  | x :: xs => x ++ "\n" ++ joinLines xs

/-- Python `s.lower()` (the source only ever lowercases ASCII text). -/
def strLower (s : String) : String := String.mk (s.data.map Char.toLower)

/-- Python `s.strip()`: remove leading and trailing whitespace. -/
def strTrim (s : String) : String :=
  String.mk (((s.data.dropWhile Char.isWhitespace).reverse.dropWhile
    Char.isWhitespace).reverse)

/-- Python `len(s)` (number of characters). -/
def strLen (s : String) : Nat := s.data.length

/-- Substring occurrence over `List Char`. -/
def containsSub : List Char → List Char → Bool
  | s, pat =>
    if pat.isPrefixOf s then true
    else
      match s with
      | [] => false
      | _ :: t => containsSub t pat

/-- Python substring membership `pat in s`. -/
def strContains (s pat : String) : Bool := containsSub s.data pat.data

/-- Python `s.endswith(suffix)`. -/
def strEndsWith (s suf : String) : Bool := suf.data.isSuffixOf s.data

/-- Python `s.split()` (no argument): split on whitespace runs, dropping
empty segments. -/
def pyWords (s : String) : List String :=
  ((splitCharAux ' ' (s.data.map (fun c => if c.isWhitespace then ' ' else c)) []).map
    String.mk).filter (fun w => w ≠ "")

/-! ## Chunker (`src/modules/embedder.py`, `CodeEmbedder.smart_chunk_code`) -/

/-- A code chunk, as built by `smart_chunk_code` (embedder.py lines 65–72 and
83–90).  `ctype` is the `'type'` key of the Python dict (`type` is a Lean
keyword). -/
structure Chunk where
  text : String
  filename : String
  start_line : Nat
  end_line : Nat
  language : String
  ctype : String
deriving DecidableEq

/-- `CodeEmbedder._detect_chunk_type` (embedder.py lines 95–112): fixed
priority order of case-insensitive substring tests, defaulting to
`code_block`. -/
def detect_chunk_type (code : String) : String :=
  let c := strLower code
  if strContains c "useeffect" || strContains c "usestate" then "react_hook"
  else if strContains c "function" && strContains c "component" then "react_component"
  else if strContains c "class" && strContains c "extends" then "class_component"
  else if strContains c "interface" || strContains c "type" then "typescript_definition"
  else if strContains c "export" then "module_export"
  else if strContains c "import" then "import_statement"
  else "code_block"

/-- Language detection from the file extension (embedder.py lines 26–31). -/
def langOf (filename : String) : String :=
  if strEndsWith filename ".tsx" || strEndsWith filename ".jsx" then "jsx"
  else if strEndsWith filename ".ts" then "typescript"
  else "javascript"

/-- The accumulation loop of `smart_chunk_code` (embedder.py lines 48–90).
Arguments: remaining lines, current 0-based line index `i`, accumulated
buffer `cur` (`current_chunk`), accumulated character count `size`
(`current_size`).  The Python loop also computes an `is_new_block` flag
(lines 52–59) that is never read afterwards; it has no effect on the output
and is therefore not modelled.  Note the flush at lines 62–74 happens
*before* the current line is appended, and `current_size` counts only the
line lengths, not the `'\n'` characters that `'\n'.join` later inserts. -/
def chunkLoop (filename lang : String) (maxSize : Nat) :
    List String → Nat → List String → Nat → List Chunk
  | [], i, cur, _ =>
      -- embedder.py lines 80–90: flush the final buffer
      if cur ≠ [] then
        let t := joinLines cur
        if strTrim t ≠ "" then
          [⟨t, filename, i - cur.length + 1, i, lang, detect_chunk_type t⟩]
        else []
      else []
  | line :: rest, i, cur, size =>
      if size + strLen line > maxSize ∧ cur ≠ [] then
        -- embedder.py lines 62–74: flush, then start a new buffer with `line`
        let t := joinLines cur
        let tail := chunkLoop filename lang maxSize rest (i + 1) [line] (strLen line)
        if strTrim t ≠ "" then
          ⟨t, filename, i - cur.length + 1, i, lang, detect_chunk_type t⟩ :: tail
        else tail
      else
        chunkLoop filename lang maxSize rest (i + 1) (cur ++ [line]) (size + strLen line)

/-- `CodeEmbedder.smart_chunk_code` (embedder.py lines 19–93). -/
def smart_chunk_code (code filename : String) (maxSize : Nat) : List Chunk :=
  chunkLoop filename (langOf filename) maxSize (splitLines code) 0 [] 0

/-- The same loop with the "discard whitespace-only buffers" filter removed:
every flushed buffer is emitted.  Used to analyse the line-range cover
property of `smart_chunk_code` (claim C2): the real chunker emits exactly the
non-whitespace members of this list. -/
def chunkLoopAll (filename lang : String) (maxSize : Nat) :
    List String → Nat → List String → Nat → List Chunk
  | [], i, cur, _ =>
      if cur ≠ [] then
        let t := joinLines cur
        [⟨t, filename, i - cur.length + 1, i, lang, detect_chunk_type t⟩]
      else []
  | line :: rest, i, cur, size =>
      if size + strLen line > maxSize ∧ cur ≠ [] then
        let t := joinLines cur
        ⟨t, filename, i - cur.length + 1, i, lang, detect_chunk_type t⟩ ::
          chunkLoopAll filename lang maxSize rest (i + 1) [line] (strLen line)
      else
        chunkLoopAll filename lang maxSize rest (i + 1) (cur ++ [line]) (size + strLen line)

/-- `smart_chunk_code` without the whitespace-buffer discard (see
`chunkLoopAll`). -/
def smart_chunk_all (code filename : String) (maxSize : Nat) : List Chunk :=
  chunkLoopAll filename (langOf filename) maxSize (splitLines code) 0 [] 0

/-- The `(start_line, end_line)` ranges of a chunk list, in emission order. -/
def ranges (cs : List Chunk) : List (Nat × Nat) := cs.map fun c => (c.start_line, c.end_line)

/-- `coversB rs lo hi`: the ranges `rs`, in order, form a non-overlapping,
gapless cover of the 1-based line interval `lo..hi`. -/
def coversB : List (Nat × Nat) → Nat → Nat → Bool
  | [], lo, hi => lo = hi + 1
  | (s, e) :: rest, lo, hi => s = lo && lo ≤ e && coversB rest (e + 1) hi

-- sanity checks for the string primitives and the chunker (kernel-evaluable)
example : splitLines "a\nb" = ["a", "b"] := by decide
example : splitLines "" = [""] := by decide
example : splitLines "a\n" = ["a", ""] := by decide
example : joinLines ["a", "b"] = "a\nb" := by decide
example : strTrim "  a " = "a" := by decide
example : strTrim "   " = "" := by decide
example : strLower "AbC" = "abc" := by decide
example : strContains "useEffect(x)" "Effect" = true := by decide
example : strContains "abc" "d" = false := by decide
example : pyWords "why  does useEffect" = ["why", "does", "useEffect"] := by decide
example : strEndsWith "a.tsx" ".tsx" = true := by decide
example : detect_chunk_type "const x = useState(0)" = "react_hook" := by decide
example :
    smart_chunk_code "abc" "a.js" 500 =
      [⟨"abc", "a.js", 1, 1, "javascript", "code_block"⟩] := by decide
example :
    ranges (smart_chunk_code "aaa\nbbb\nccc" "a.js" 3) = [(1, 1), (2, 2), (3, 3)] := by
  decide
example : ranges (smart_chunk_code "abc\nde" "a.js" 5) = [(1, 2)] := by decide
example : coversB [(1, 2), (3, 5)] 1 5 = true := by decide
example : coversB [(1, 1)] 1 2 = false := by decide

/-! ## Retriever (`src/modules/retriever.py`, `CodeRetriever`) -/

/-- A retrieved chunk as handed around by `retrieve_relevant_chunks`
(retriever.py lines 85–96): the dict built by
`CodeVectorStore.search_similar_chunks` (chromadb_store.py lines 130–138,
with the metadata fields inlined), plus the `relevance_score` the retriever
adds.  Scores and distances are `Int` (see the file header); before the
retriever assigns `relevance_score` the field holds the placeholder `0`. -/
structure RChunk where
  text : String
  filename : String
  start_line : Nat
  end_line : Nat
  ctype : String
  language : String
  session_id : String
  distance : Int
  relevance_score : Int
deriving DecidableEq

/-- `CodeRetriever.enhance_query` (retriever.py lines 17–60): the original
query first, then the fixed expansion table; rules fire independently. -/
def enhance_query (query : String) : List String :=
  let ql := strLower query
  [query]
  ++ (if strContains ql "useeffect" then
        [query ++ " dependency array", query ++ " cleanup function",
         "useEffect infinite loop"] else [])
  ++ (if strContains ql "usestate" then
        [query ++ " state update", query ++ " functional update",
         "useState asynchronous"] else [])
  ++ (if strContains ql "infinite" || strContains ql "loop" then
        ["useEffect dependency array", "missing dependencies",
         "useCallback memoization"] else [])
  ++ (if strContains ql "render" then
        ["React.memo optimization", "useMemo performance",
         "unnecessary re-render"] else [])
  ++ (if ["type", "interface", "generic"].any (fun t => strContains ql t) then
        [query ++ " TypeScript", query ++ " type definition"] else [])

/-- `CodeRetriever._calculate_relevance` (retriever.py lines 105–140), in
half-point units: the source's `+1.0`, `+2.0`, `+1.5` become `+2`, `+4`,
`+3`.  The per-word loop adds `+1.0` for each query word occurring in the
chunk text (duplicated query words count each time). -/
def calculate_relevance (query : String) (chunk : RChunk) : Int :=
  let ql := strLower query
  let ct := strLower chunk.text
  let score : Int := 0
  let score := score + 2 * (((pyWords ql).filter fun w => strContains ct w).length : Int)
  let score := if strContains ql "useeffect" && strContains ct "useeffect" then
    score + 4 else score
  let score := if strContains ql "usestate" && strContains ct "usestate" then
    score + 4 else score
  let score := if strContains ql "infinite" &&
      (strContains ct "dependency" || strContains ct "useeffect") then
    score + 3 else score
  let score := if chunk.ctype = "react_hook" &&
      (["hook", "useeffect", "usestate"].any fun h => strContains ql h) then
    score + 2 else score
  let score := if chunk.ctype = "react_component" && strContains ql "component" then
    score + 2 else score
  let score := if chunk.ctype = "typescript_definition" &&
      (["type", "interface"].any fun t => strContains ql t) then
    score + 2 else score
  score

/-- The dedup identity key of retriever.py line 86: the filename and the
decimal start line joined by a colon. -/
def chunkKey (c : RChunk) : String := c.filename ++ ":" ++ toString c.start_line

/-- retriever.py line 88: store the computed relevance score on the chunk. -/
def withScore (query : String) (c : RChunk) : RChunk :=
  { c with relevance_score := calculate_relevance query c }

/-- The sort key of retriever.py line 93:
`sort(key=lambda x: (x['relevance_score'], -x['distance']), reverse=True)`.
`keyGE a b` says `a`'s key is lexicographically ≥ `b`'s, i.e. `a` may come
before `b`: relevance descending, distance ascending within equal
relevance. -/
def keyGE (a b : RChunk) : Prop :=
  b.relevance_score < a.relevance_score ∨
    (a.relevance_score = b.relevance_score ∧ a.distance ≤ b.distance)

instance : DecidableRel keyGE := fun a b => by unfold keyGE; exact inferInstance

instance : IsTotal RChunk keyGE := ⟨by intro a b; unfold keyGE; omega⟩

instance : IsTrans RChunk keyGE :=
  ⟨by intro a b c hab hbc; unfold keyGE at hab hbc ⊢; omega⟩

/-- The inner loop of retriever.py lines 85–90: walk one search result list,
skipping chunks whose key is already in `seen` and otherwise appending the
scored chunk to `acc` and its key to `seen`. -/
def addVariant (query : String) : List RChunk → List RChunk → List String →
    List RChunk × List String
  | [], acc, seen => (acc, seen)
  | c :: cs, acc, seen =>
      if chunkKey c ∈ seen then addVariant query cs acc seen
      else addVariant query cs (acc ++ [withScore query c]) (seen ++ [chunkKey c])

/-- The outer loop of retriever.py lines 77–90: run the search for each
(capped) query variant and accumulate unique chunks. -/
def gatherChunks (query : String) (searchFn : String → List RChunk) :
    List String → List RChunk → List String → List RChunk
  | [], acc, _ => acc
  | v :: vs, acc, seen =>
      let p := addVariant query (searchFn v) acc seen
      gatherChunks query searchFn vs p.1 p.2

/-- `CodeRetriever.retrieve_relevant_chunks` (retriever.py lines 62–99).
`searchFn` stands for `vector_store.search_similar_chunks(·, session_id,
top_k=max_chunks)` for the fixed session of the call, already including that
method's internal exception handling (it returns a list on every input, see
`retrieve_relevant_chunksE` for the fallible-backend composition).  Python's
stable `sort(..., reverse=True)` is `List.insertionSort keyGE`. -/
def retrieve_relevant_chunks (searchFn : String → List RChunk) (query : String)
    (max_chunks : Nat) : List RChunk :=
  let variants := (enhance_query query).take 3
  let all_chunks := gatherChunks query searchFn variants [] []
  (List.insertionSort keyGE all_chunks).take max_chunks

/-- `CodeVectorStore.search_similar_chunks`' exception handling
(chromadb_store.py lines 111–146): the whole body is a `try` whose `except`
returns `[]`.  `raw` is the fallible body (query embedding + ChromaDB
query + result formatting); a failure of one call yields `[]` for exactly
that call. -/
def search_similar_chunksE (raw : String → Except Unit (List RChunk))
    (query : String) : List RChunk :=
  match raw query with
  | .ok chunks => chunks
  | .error _ => []

/-- `retrieve_relevant_chunks` composed with the fallible store search, as in
the source (retriever.py line 78 calling chromadb_store.py line 107). -/
def retrieve_relevant_chunksE (raw : String → Except Unit (List RChunk))
    (query : String) (max_chunks : Nat) : List RChunk :=
  retrieve_relevant_chunks (search_similar_chunksE raw) query max_chunks

/-- The per-chunk sections of `format_context_for_ai` (retriever.py lines
152–165), with the 1-based `enumerate` counter `i`. -/
def formatParts : List RChunk → Nat → List String
  | [], _ => []
  | c :: rest, i =>
      let code_text :=
        match splitLines c.text with
        | [] => c.text
        | l0 :: ls => if l0 = c.filename then joinLines ls else c.text
      ("### " ++ toString i ++ ". " ++ c.filename ++ " (lines " ++
          toString c.start_line ++ "-" ++ toString c.end_line ++ ") - " ++ c.ctype)
        :: ("```" ++ c.language)
        :: strTrim code_text
        :: "```\n"
        :: formatParts rest (i + 1)

/-- `CodeRetriever.format_context_for_ai` (retriever.py lines 142–167). -/
def format_context_for_ai (chunks : List RChunk) (query : String) : String :=
  if chunks = [] then "No relevant code found."
  else
    joinLines (("## Relevant Code for Query: \x27" ++ query ++ "\x27\n")
      :: formatParts chunks 1)

/-! ## Vector store (`src/modules/chromadb_store.py`, `CodeVectorStore`) -/

/-- A chunk as handed to `store_chunks`: a chunker chunk with its embedding
vector attached (`CodeEmbedder.embed_chunks`).  Embedding vectors are
abstract `List Int` — only distance comparisons between them are ever
observed. -/
structure StoreChunk where
  text : String
  filename : String
  start_line : Nat
  end_line : Nat
  language : String
  ctype : String
  embedding : List Int
deriving DecidableEq

/-- One record of the ChromaDB collection, as written by `store_chunks`
(chromadb_store.py lines 70–98): the id is the session id and the chunk
index joined by an underscore, the document is the filename and the chunk
text joined by a newline, then the embedding and the metadata dict
flattened into fields. -/
structure StoredEntry where
  cid : String
  document : String
  embedding : List Int
  filename : String
  start_line : Nat
  end_line : Nat
  language : String
  ctype : String
  session_id : String
deriving DecidableEq

/-- `CodeVectorStore.store_chunks` (chromadb_store.py lines 51–101).  The
collection is the ordered list of previously added entries; `fresh` stands
for the `str(uuid.uuid4())` drawn at line 61.  Python's `if not session_id`
is true for both `None` and the empty string.  Returns the
`(returned session_id, new collection)` pair; on an empty chunk list it
returns `""` and leaves the collection untouched (lines 56–58). -/
def store_chunks (coll : List StoredEntry) (chunks : List StoreChunk)
    (session_id : Option String) (fresh : String) : String × List StoredEntry :=
  if chunks = [] then ("", coll)
  else
    let sid := match session_id with
      | none => fresh
      | some s => if s = "" then fresh else s
    let entries := chunks.enum.map fun p =>
      ⟨sid ++ "_" ++ toString p.1, p.2.filename ++ "\n" ++ p.2.text, p.2.embedding,
       p.2.filename, p.2.start_line, p.2.end_line, p.2.language, p.2.ctype, sid⟩
    (sid, coll ++ entries)

/-- The ChromaDB `collection.query` call of chromadb_store.py lines
120–124, by its documented semantics: restrict to the entries whose
metadata satisfies the mandatory session `where` filter, then return the
`top_k` nearest by embedding distance (ascending).  `dist` is the
collection's distance function, abstract here. -/
def chroma_query (coll : List StoredEntry) (qemb : List Int) (top_k : Nat)
    (sid : String) (dist : List Int → List Int → Int) : List StoredEntry :=
  (List.insertionSort (fun a b => dist qemb a.embedding ≤ dist qemb b.embedding)
    (coll.filter fun e => e.session_id = sid)).take top_k

/-- The success path of `CodeVectorStore.search_similar_chunks`
(chromadb_store.py lines 111–142): embed the query (`embedF` stands for
`embedder.model.encode`), run the ChromaDB query with the mandatory
session filter of line 123, and format each hit into the result dict of
lines 130–138 (`text` is the stored document, which carries the filename
prefix line). -/
def search_similar_chunks (embedF : String → List Int)
    (dist : List Int → List Int → Int) (coll : List StoredEntry)
    (query session_id : String) (top_k : Nat) : List RChunk :=
  let qemb := embedF query
  (chroma_query coll qemb top_k session_id dist).map fun e =>
    ⟨e.document, e.filename, e.start_line, e.end_line, e.ctype, e.language,
     e.session_id, dist qemb e.embedding, 0⟩

/-- First-appearance deduplication with an explicit `seen` accumulator. -/
def dedupFirstAux : List String → List String → List String
  | [], _ => []
  | a :: l, seen =>
      if a ∈ seen then dedupFirstAux l seen else a :: dedupFirstAux l (a :: seen)

/-- The session ids of a collection in first-appearance order, skipping
falsy (empty) ids — the key order of the `sessions` dict built by
`cleanup_old_sessions` (chromadb_store.py lines 183–192; Python dicts
preserve insertion order, and line 186 skips falsy ids). -/
def sessionIdsInOrder (coll : List StoredEntry) : List String :=
  dedupFirstAux ((coll.map fun e => e.session_id).filter fun s => s ≠ "") []

/-- `CodeVectorStore.cleanup_old_sessions` (chromadb_store.py lines
174–204).  `collection.get()` returns the stored entries in insertion
order; the per-session `collection.delete` call removes the entries whose
metadata carries that session id.  Note Python's `session_ids[:-keep_recent]` is the *empty* list
when `keep_recent == 0` (a `[:-0]` slice), so `keep_recent = 0` deletes
nothing. -/
def cleanup_old_sessions (coll : List StoredEntry) (keep_recent : Nat) :
    List StoredEntry :=
  if coll = [] then coll
  else
    let ids := sessionIdsInOrder coll
    if keep_recent < ids.length then
      let old := if keep_recent = 0 then [] else ids.take (ids.length - keep_recent)
      old.foldl (fun c sid => c.filter fun e => e.session_id ≠ sid) coll
    else coll

/-- First-occurrence-wins deduplication by `chunkKey` of a single stream of
search hits, scoring each kept chunk — the specification-style description
of what the nested loops of retriever.py lines 77–90 compute on the
concatenation of the per-variant search results. -/
def dedupByKeyScored (query : String) : List RChunk → List String → List RChunk
  | [], _ => []
  | c :: cs, seen =>
      if chunkKey c ∈ seen then dedupByKeyScored query cs seen
      else withScore query c :: dedupByKeyScored query cs (seen ++ [chunkKey c])

-- sanity checks (kernel-evaluable)
example :
    enhance_query "useEffect" =
      ["useEffect", "useEffect dependency array", "useEffect cleanup function",
       "useEffect infinite loop"] := by decide
example : enhance_query "hello" = ["hello"] := by decide
example :
    calculate_relevance "useEffect loop"
      ⟨"f.js\nuseEffect(() => x)", "f.js", 1, 2, "react_hook", "javascript",
       "s", 0, 0⟩ = 2 + 4 + 2 := by decide
example : format_context_for_ai [] "q" = "No relevant code found." := by decide

/-- Input for the C2 counterexample: a 300-character line (no single line
exceeds the default `max_chunk_size` of 500). -/
def xLine : String := String.mk (List.replicate 300 'x')

/-- Input for the C2 counterexample: a 300-character whitespace-only line. -/
def spLine : String := String.mk (List.replicate 300 ' ')

/-- Concrete retrieved chunk for the C4/C6 instances (key `"f.js:1"`,
distance 1, no query-keyword matches in its text). -/
def chunkA : RChunk := ⟨"aaa", "f.js", 1, 1, "code_block", "javascript", "s", 1, 0⟩

/-- Concrete retrieved chunk for the C4 counterexample (key `"g.js:1"`,
distance 0, no query-keyword matches in its text). -/
def chunkB : RChunk := ⟨"bbb", "g.js", 1, 1, "code_block", "javascript", "s", 0, 0⟩

/-- Search oracle for the C4 counterexample: the duplicate-key chunk
`chunkA` is surfaced by the first two variants of the query `"useEffect"`,
`chunkB` by the third; every search returns at most `top_k = max_chunks = 1`
hits. -/
def searchCE (v : String) : List RChunk :=
  if v = "useEffect" then [chunkA]
  else if v = "useEffect dependency array" then [chunkA]
  else if v = "useEffect cleanup function" then [chunkB]
  else []

/-- Fallible search oracle for the C6 witness: the second variant of the
query `"useEffect"` fails, the first succeeds with `chunkA`. -/
def rawCE (v : String) : Except Unit (List RChunk) :=
  if v = "useEffect" then .ok [chunkA]
  else if v = "useEffect dependency array" then .error ()
  else .ok []

/-- Concrete embedded chunk stored under session `"a"` in the C1/C5/C10
instances. -/
def scA : StoreChunk := ⟨"ta", "f.js", 1, 1, "javascript", "code_block", [0]⟩

/-- Concrete embedded chunk stored under session `"b"` in the C1/C5
instances. -/
def scB : StoreChunk := ⟨"tb", "g.js", 1, 1, "javascript", "code_block", [1]⟩

/-- A two-session collection: `[scA]` stored under session `"a"`, then
`[scB]` stored under session `"b"`. -/
def collAB : List StoredEntry :=
  (store_chunks (store_chunks [] [scA] (some "a") "u1").2 [scB] (some "b") "u2").2

/-- A one-session collection for the C5 counterexample. -/
def entS : StoredEntry :=
  ⟨"s_0", "f.js\nta", [0], "f.js", 1, 1, "javascript", "code_block", "s"⟩

/-! ## Chunker lemmas -/

lemma chunkLoop_eq_filter (fname lang : String) (ms : Nat) (lines : List String) :
    ∀ i cur sz,
      chunkLoop fname lang ms lines i cur sz =
        (chunkLoopAll fname lang ms lines i cur sz).filter
          fun c => strTrim c.text ≠ "" := by
  induction lines with
  | nil =>
      intro i cur sz
      by_cases hc : cur = []
      · simp [chunkLoop, chunkLoopAll, hc]
      · by_cases ht : strTrim (joinLines cur) = ""
        · simp [chunkLoop, chunkLoopAll, hc, ht]
        · simp [chunkLoop, chunkLoopAll, hc, ht]
  | cons line rest ih =>
      intro i cur sz
      by_cases hf : sz + strLen line > ms ∧ cur ≠ []
      · by_cases ht : strTrim (joinLines cur) = ""
        · simp [chunkLoop, chunkLoopAll, hf, ht, ih]
        · simp [chunkLoop, chunkLoopAll, hf, ht, ih]
      · simp [chunkLoop, chunkLoopAll, hf, ih]

lemma smart_chunk_eq_filter (code fname : String) (ms : Nat) :
    smart_chunk_code code fname ms =
      (smart_chunk_all code fname ms).filter fun c => strTrim c.text ≠ "" :=
  chunkLoop_eq_filter fname (langOf fname) ms (splitLines code) 0 [] 0

lemma coversB_nil_iff {lo hi : Nat} : coversB [] lo hi = true ↔ lo = hi + 1 := by
  simp [coversB]

lemma coversB_cons_iff {s e : Nat} {rest : List (Nat × Nat)} {lo hi : Nat} :
    coversB ((s, e) :: rest) lo hi = true ↔
      s = lo ∧ lo ≤ e ∧ coversB rest (e + 1) hi = true := by
  simp [coversB, Bool.and_assoc]

lemma coversB_chunkLoopAll (fname lang : String) (ms : Nat) (lines : List String) :
    ∀ i cur sz, cur.length ≤ i →
      coversB (ranges (chunkLoopAll fname lang ms lines i cur sz))
        (i - cur.length + 1) (i + lines.length) = true := by
  induction lines with
  | nil =>
      intro i cur sz h
      by_cases hc : cur = []
      · subst hc
        simp [chunkLoopAll, ranges, coversB_nil_iff]
      · have hlen : 0 < cur.length := List.length_pos.mpr hc
        simp only [chunkLoopAll, if_pos hc, ranges, List.map_cons, List.map_nil,
          List.length_nil]
        rw [coversB_cons_iff]
        refine ⟨rfl, by omega, ?_⟩
        rw [coversB_nil_iff]
  | cons line rest ih =>
      intro i cur sz h
      by_cases hf : sz + strLen line > ms ∧ cur ≠ []
      · have hlen : 0 < cur.length := List.length_pos.mpr hf.2
        simp only [chunkLoopAll, if_pos hf, ranges, List.map_cons, List.length_cons]
        rw [coversB_cons_iff]
        refine ⟨rfl, by omega, ?_⟩
        have htail := ih (i + 1) [line] (strLen line) (by simp)
        simp only [List.length_cons, List.length_nil] at htail
        have h1 : i + 1 - (0 + 1) + 1 = i + 1 := by omega
        have h2 : i + 1 + rest.length = i + (rest.length + 1) := by omega
        rw [h1, h2] at htail
        exact htail
      · simp only [chunkLoopAll, if_neg hf, List.length_cons]
        have htail := ih (i + 1) (cur ++ [line]) (sz + strLen line) (by simp; omega)
        have h1 : i + 1 - (cur ++ [line]).length + 1 = i - cur.length + 1 := by
          simp only [List.length_append, List.length_cons, List.length_nil]
          omega
        have h2 : i + 1 + rest.length = i + (rest.length + 1) := by omega
        rw [h1, h2] at htail
        exact htail

lemma coversB_ranges_le {rs : List (Nat × Nat)} :
    ∀ lo hi, coversB rs lo hi = true → ∀ p ∈ rs, p.1 ≤ p.2 := by
  induction rs with
  | nil => intro lo hi _ p hp; cases hp
  | cons q rest ih =>
      intro lo hi hcov p hp
      obtain ⟨s, e⟩ := q
      rw [coversB_cons_iff] at hcov
      rcases List.mem_cons.mp hp with hp | hp
      · subst hp
        show s ≤ e
        omega
      · exact ih (e + 1) hi hcov.2.2 p hp

lemma coversB_smart_chunk_all (code fname : String) (ms : Nat) :
    coversB (ranges (smart_chunk_all code fname ms)) 1 (splitLines code).length = true := by
  have h := coversB_chunkLoopAll fname (langOf fname) ms (splitLines code) 0 [] 0
    (by simp)
  simpa using h

/-! ## Claims about the chunker -/

set_option maxRecDepth 40000 in
/-- Claim C2 (as stated) is false: the chunker discards whitespace-only
buffers, which can leave input lines uncovered even though no single line
exceeds `max_chunk_size`.  Concrete input: a 300-character line followed by
a 300-character whitespace-only line, with the default cap 500.  The
accumulated 600 characters force a flush after line 1; the remaining
whitespace-only buffer is discarded, so the emitted chunks cover only line
1 of 2. -/
theorem c2_line_cover_counterexample :
    coversB (ranges (smart_chunk_code (xLine ++ "\n" ++ spLine) "a.js" 500)) 1
      (splitLines (xLine ++ "\n" ++ spLine)).length = false ∧
    ranges (smart_chunk_code (xLine ++ "\n" ++ spLine) "a.js" 500) = [(1, 1)] ∧
    (splitLines (xLine ++ "\n" ++ spLine)).length = 2 := by
  refine ⟨?_, ?_, ?_⟩ <;> decide

/-- Claim C2 (amended): in emission order the chunker's flushed buffers form a
non-overlapping, gapless cover of the input's lines, and the emitted chunks
are exactly the flushed buffers whose text is not whitespace-only — so the
cover is gapless except at discarded whitespace-only buffers (and exact
whenever no flushed buffer is whitespace-only). -/
theorem c2_line_cover_amended (code fname : String) (ms : Nat) :
    coversB (ranges (smart_chunk_all code fname ms)) 1 (splitLines code).length = true ∧
    smart_chunk_code code fname ms =
      (smart_chunk_all code fname ms).filter fun c => strTrim c.text ≠ "" :=
  ⟨coversB_smart_chunk_all code fname ms, smart_chunk_eq_filter code fname ms⟩

/-- Claim C9: every chunk emitted by the chunker satisfies
`start_line ≤ end_line`, and its text is never empty or whitespace-only. -/
theorem c9_chunk_well_formed (code fname : String) (ms : Nat) (c : Chunk)
    (hc : c ∈ smart_chunk_code code fname ms) :
    c.start_line ≤ c.end_line ∧ strTrim c.text ≠ "" := by
  rw [smart_chunk_eq_filter] at hc
  rw [List.mem_filter] at hc
  refine ⟨?_, by simpa using hc.2⟩
  have hcov := coversB_smart_chunk_all code fname ms
  have := coversB_ranges_le 1 (splitLines code).length hcov
    (c.start_line, c.end_line) (List.mem_map_of_mem _ hc.1)
  exact this

/-- Witness for C9 at a concrete input. -/
theorem c9_chunk_well_formed_witness :
    Chunk.mk "abc" "a.js" 1 1 "javascript" "code_block" ∈
      smart_chunk_code "abc" "a.js" 500 ∧
    (1 ≤ 1 ∧ strTrim "abc" ≠ "") :=
  ⟨by decide, c9_chunk_well_formed "abc" "a.js" 500
    (Chunk.mk "abc" "a.js" 1 1 "javascript" "code_block") (by decide)⟩

/-- Claim C8: the chunker's size check fires before the current line is
appended and counts only the accumulated line lengths, so emitted chunks can
exceed `max_chunk_size`.  First conjunct: a single-line input longer than
`max_chunk_size` is emitted untruncated as its own chunk.  Remaining
conjuncts: a concrete input whose one emitted chunk has 6 characters under
cap 5 — the buffer's line lengths sum to exactly the cap, and the joining
newline pushes the chunk text over it. -/
theorem c8_soft_size_cap :
    (∀ fname (ms : Nat) (line : String), splitLines line = [line] →
      strTrim line ≠ "" → strLen line > ms →
      smart_chunk_code line fname ms =
        [⟨line, fname, 1, 1, langOf fname, detect_chunk_type line⟩]) ∧
    smart_chunk_code "abc\nde" "a.js" 5 =
      [⟨"abc\nde", "a.js", 1, 2, "javascript", "code_block"⟩] ∧
    strLen "abc\nde" > 5 ∧ strLen "abc" + strLen "de" ≤ 5 := by
  refine ⟨?_, by decide, by decide, by decide⟩
  intro fname ms line hsplit htrim _
  simp [smart_chunk_code, hsplit, chunkLoop, joinLines, htrim]

/-- Witness for C8's universal part at a concrete input: a 7-character line
with cap 5 is emitted whole. -/
theorem c8_soft_size_cap_witness :
    splitLines "xxxxxxx" = ["xxxxxxx"] ∧ strTrim "xxxxxxx" ≠ "" ∧
    strLen "xxxxxxx" > 5 ∧
    smart_chunk_code "xxxxxxx" "a.js" 5 =
      [⟨"xxxxxxx", "a.js", 1, 1, langOf "a.js", detect_chunk_type "xxxxxxx"⟩] :=
  ⟨by decide, by decide, by decide,
   c8_soft_size_cap.1 "a.js" 5 "xxxxxxx" (by decide) (by decide) (by decide)⟩

/-! ## Retriever lemmas -/

lemma chunkKey_withScore (q : String) (c : RChunk) :
    chunkKey (withScore q c) = chunkKey c := rfl

lemma addVariant_append (q : String) (xs ys : List RChunk) :
    ∀ acc seen, addVariant q (xs ++ ys) acc seen =
      addVariant q ys (addVariant q xs acc seen).1 (addVariant q xs acc seen).2 := by
  induction xs with
  | nil => intro acc seen; simp [addVariant]
  | cons c cs ih =>
      intro acc seen
      by_cases hk : chunkKey c ∈ seen
      · simp [addVariant, hk, ih]
      · simp [addVariant, hk, ih]

lemma gatherChunks_eq_addVariant (q : String) (f : String → List RChunk) :
    ∀ vs acc seen,
      gatherChunks q f vs acc seen = (addVariant q (vs.flatMap f) acc seen).1 := by
  intro vs
  induction vs with
  | nil => intro acc seen; simp [gatherChunks, addVariant]
  | cons v vs ih =>
      intro acc seen
      rw [List.flatMap_cons, addVariant_append]
      simp [gatherChunks, ih]

lemma addVariant_fst (q : String) :
    ∀ (cs : List RChunk) acc seen,
      (addVariant q cs acc seen).1 = acc ++ dedupByKeyScored q cs seen := by
  intro cs
  induction cs with
  | nil => intro acc seen; simp [addVariant, dedupByKeyScored]
  | cons c cs ih =>
      intro acc seen
      by_cases hk : chunkKey c ∈ seen
      · simp [addVariant, dedupByKeyScored, hk, ih]
      · simp [addVariant, dedupByKeyScored, hk, ih]

lemma retrieve_eq_dedup (f : String → List RChunk) (q : String) (mc : Nat) :
    retrieve_relevant_chunks f q mc =
      (List.insertionSort keyGE
        (dedupByKeyScored q (((enhance_query q).take 3).flatMap f) [])).take mc := by
  simp only [retrieve_relevant_chunks]
  rw [gatherChunks_eq_addVariant, addVariant_fst]
  simp

lemma dedupByKeyScored_key_not_seen (q : String) :
    ∀ (cs : List RChunk) seen c, c ∈ dedupByKeyScored q cs seen →
      chunkKey c ∉ seen := by
  intro cs
  induction cs with
  | nil => intro seen c hc; simp [dedupByKeyScored] at hc
  | cons c0 cs ih =>
      intro seen c hc
      by_cases hk : chunkKey c0 ∈ seen
      · rw [dedupByKeyScored, if_pos hk] at hc
        exact ih seen c hc
      · rw [dedupByKeyScored, if_neg hk] at hc
        rcases List.mem_cons.mp hc with hc | hc
        · subst hc; rw [chunkKey_withScore]; exact hk
        · have := ih (seen ++ [chunkKey c0]) c hc
          intro hmem
          exact this (List.mem_append_left _ hmem)

lemma dedupByKeyScored_pairwise_key (q : String) :
    ∀ (cs : List RChunk) seen,
      (dedupByKeyScored q cs seen).Pairwise fun a b => chunkKey a ≠ chunkKey b := by
  intro cs
  induction cs with
  | nil => intro seen; simp [dedupByKeyScored]
  | cons c0 cs ih =>
      intro seen
      by_cases hk : chunkKey c0 ∈ seen
      · rw [dedupByKeyScored, if_pos hk]; exact ih seen
      · rw [dedupByKeyScored, if_neg hk]
        refine List.Pairwise.cons ?_ (ih (seen ++ [chunkKey c0]))
        intro b hb heq
        have := dedupByKeyScored_key_not_seen q cs (seen ++ [chunkKey c0]) b hb
        rw [chunkKey_withScore] at heq
        exact this (by rw [← heq]; exact List.mem_append_right _ (List.mem_singleton.mpr rfl))

lemma gatherChunks_all_empty (q : String) (f : String → List RChunk)
    (hf : ∀ v, f v = []) :
    ∀ vs acc seen, gatherChunks q f vs acc seen = acc := by
  intro vs
  induction vs with
  | nil => intro acc seen; rfl
  | cons v vs ih => intro acc seen; simp [gatherChunks, hf v, addVariant, ih]

lemma keyGE_symm_ne :
    ∀ {a b : RChunk}, chunkKey a ≠ chunkKey b → chunkKey b ≠ chunkKey a :=
  fun h => fun heq => h heq.symm

/-! ## Claims about the retriever -/

/-- Claim C3: the sequence returned by `retrieve_relevant_chunks` is sorted by
`relevance_score` descending with `distance` ascending as the tiebreaker
within equal relevance (the pairwise relation `keyGE`), and is truncated to
at most `max_chunks` elements.  Quantified over every search oracle, i.e.
every store/session state. -/
theorem c3_ranking_order (f : String → List RChunk) (q : String) (mc : Nat) :
    (retrieve_relevant_chunks f q mc).Sorted keyGE ∧
    (retrieve_relevant_chunks f q mc).length ≤ mc := by
  constructor
  · exact List.Pairwise.sublist (List.take_sublist _ _)
      (List.sorted_insertionSort keyGE _)
  · exact List.length_take_le _ _

/-- Claim C4 (as stated) is false: a chunk surfaced by two query variants can
appear *zero* times in the final result, because the ranked list is
truncated to `max_chunks` after deduplication.  Here `chunkA` (key
`"f.js:1"`) is surfaced by the first two variants of `"useEffect"`, but with
`max_chunks = 1` the closer chunk `chunkB` wins the single result slot. -/
theorem c4_dedup_counterexample :
    searchCE "useEffect" = [chunkA] ∧
    searchCE "useEffect dependency array" = [chunkA] ∧
    (enhance_query "useEffect").take 3 =
      ["useEffect", "useEffect dependency array", "useEffect cleanup function"] ∧
    (retrieve_relevant_chunks searchCE "useEffect" 1).map chunkKey = ["g.js:1"] ∧
    ((retrieve_relevant_chunks searchCE "useEffect" 1).filter
      fun c => chunkKey c = chunkKey chunkA).length = 0 := by
  refine ⟨?_, ?_, ?_, ?_, ?_⟩ <;> decide

/-- Claim C4 (amended): across all variant results, deduplication by identity
key `(filename, start_line)` keeps exactly the first occurrence of each key
(`dedupByKeyScored` folds the concatenated variant results left-to-right,
dropping any chunk whose key was already seen — even when the duplicate came
from a different variant), so no key appears twice in the final ranked
result; truncation to `max_chunks` may then drop a key entirely. -/
theorem c4_dedup_amended (f : String → List RChunk) (q : String) (mc : Nat) :
    retrieve_relevant_chunks f q mc =
      (List.insertionSort keyGE
        (dedupByKeyScored q (((enhance_query q).take 3).flatMap f) [])).take mc ∧
    (retrieve_relevant_chunks f q mc).Pairwise fun a b => chunkKey a ≠ chunkKey b := by
  refine ⟨retrieve_eq_dedup f q mc, ?_⟩
  rw [retrieve_eq_dedup f q mc]
  refine List.Pairwise.sublist (List.take_sublist _ _) ?_
  have hperm := List.perm_insertionSort keyGE
    (dedupByKeyScored q (((enhance_query q).take 3).flatMap f) [])
  exact (List.Perm.pairwise_iff keyGE_symm_ne hperm).mpr
    (dedupByKeyScored_pairwise_key q _ [])

/-- Claim C6: failure recovery is local to a single query variant.  First
conjunct: the retriever over a fallible store search behaves exactly as the
pure retriever over the caught (`[]`-on-error) search — each variant
contributes its own hits independently of other variants failing.  Second
conjunct: a variant whose search fails is equivalent to that variant
succeeding with zero hits, with all other variants' chunks still returned.
Third conjunct: concretely, with the second variant of `"useEffect"`
failing, the chunk found by the first variant is still returned. -/
theorem c6_variant_local_recovery :
    (∀ (raw : String → Except Unit (List RChunk)) (q : String) (mc : Nat),
      retrieve_relevant_chunksE raw q mc =
        retrieve_relevant_chunks
          (fun v => match raw v with | .ok l => l | .error _ => []) q mc) ∧
    (∀ (raw : String → Except Unit (List RChunk)) (q v : String) (mc : Nat),
      raw v = .error () →
      retrieve_relevant_chunksE raw q mc =
        retrieve_relevant_chunksE (fun x => if x = v then .ok [] else raw x) q mc) ∧
    retrieve_relevant_chunksE rawCE "useEffect" 8 =
      [withScore "useEffect" chunkA] := by
  refine ⟨fun raw q mc => rfl, ?_, by decide⟩
  intro raw q v mc h
  have hfn : search_similar_chunksE (fun x => if x = v then .ok [] else raw x) =
      search_similar_chunksE raw := by
    funext x
    by_cases hx : x = v
    · subst hx
      simp [search_similar_chunksE, h]
    · simp [search_similar_chunksE, hx]
  unfold retrieve_relevant_chunksE
  rw [hfn]

/-- Witness for C6 at a concrete input: `rawCE` fails on the second variant
of `"useEffect"`, and the whole retrieval equals the one where that variant
succeeds with zero hits. -/
theorem c6_variant_local_recovery_witness :
    rawCE "useEffect dependency array" = .error () ∧
    retrieve_relevant_chunksE rawCE "useEffect" 8 =
      retrieve_relevant_chunksE
        (fun x => if x = "useEffect dependency array" then .ok [] else rawCE x)
        "useEffect" 8 :=
  ⟨rfl, c6_variant_local_recovery.2.1 rawCE "useEffect"
    "useEffect dependency array" 8 rfl⟩

/-- Claim C7: zero-result degradation.  Formatting an empty chunk sequence
produces the explicit marker `"No relevant code found."`, never the empty
string; retrieval against an empty session (every search returns no hits,
e.g. an empty codebase, with any query including the empty one) returns the
empty sequence; the same holds when every search fails. -/
theorem c7_zero_result_degradation :
    (∀ q, format_context_for_ai [] q = "No relevant code found.") ∧
    (∀ q, format_context_for_ai [] q ≠ "") ∧
    (∀ (f : String → List RChunk) (q : String) (mc : Nat), (∀ v, f v = []) →
      retrieve_relevant_chunks f q mc = []) ∧
    (∀ (raw : String → Except Unit (List RChunk)) (q : String) (mc : Nat),
      (∀ v, raw v = .error ()) → retrieve_relevant_chunksE raw q mc = []) := by
  have hempty : ∀ (f : String → List RChunk) (q : String) (mc : Nat),
      (∀ v, f v = []) → retrieve_relevant_chunks f q mc = [] := by
    intro f q mc hf
    simp only [retrieve_relevant_chunks]
    rw [gatherChunks_all_empty q f hf]
    simp
  refine ⟨fun q => rfl, fun q => by simp [format_context_for_ai], hempty, ?_⟩
  intro raw q mc hraw
  exact hempty _ q mc fun v => by simp [search_similar_chunksE, hraw v]

/-- Witness for C7 at a concrete input: retrieval of the empty query against
an all-empty search returns the empty sequence, and formatting it yields the
marker. -/
theorem c7_zero_result_degradation_witness :
    retrieve_relevant_chunks (fun _ => []) "" 8 = [] ∧
    format_context_for_ai [] "" = "No relevant code found." :=
  ⟨c7_zero_result_degradation.2.2.1 (fun _ => []) "" 8 fun _ => rfl,
   c7_zero_result_degradation.1 ""⟩

/-! ## Vector-store lemmas -/

lemma mem_chroma_query {coll : List StoredEntry} {qemb : List Int} {top_k : Nat}
    {sid : String} {dist : List Int → List Int → Int} {e : StoredEntry}
    (he : e ∈ chroma_query coll qemb top_k sid dist) : e.session_id = sid := by
  unfold chroma_query at he
  have h1 := (List.take_sublist _ _).subset he
  have h2 := (List.perm_insertionSort
    (fun a b => dist qemb a.embedding ≤ dist qemb b.embedding)
    (coll.filter fun x => x.session_id = sid)).mem_iff.mp h1
  simpa using (List.mem_filter.mp h2).2

lemma foldl_filter_not_mem (old : List String) :
    ∀ coll : List StoredEntry,
      old.foldl (fun c sid => c.filter fun e => e.session_id ≠ sid) coll =
        coll.filter fun e => e.session_id ∉ old := by
  induction old with
  | nil => intro coll; simp
  | cons s rest ih =>
      intro coll
      rw [List.foldl_cons, ih, List.filter_filter]
      apply List.filter_congr
      intro e _
      by_cases h1 : e.session_id = s <;> by_cases h2 : e.session_id ∈ rest <;>
        simp [h1, h2, List.mem_cons]

lemma mem_dedupFirstAux :
    ∀ (l seen : List String) (x : String),
      x ∈ dedupFirstAux l seen ↔ x ∈ l ∧ x ∉ seen := by
  intro l
  induction l with
  | nil => intro seen x; simp [dedupFirstAux]
  | cons a l ih =>
      intro seen x
      by_cases ha : a ∈ seen
      · rw [dedupFirstAux, if_pos ha, ih]
        simp only [List.mem_cons]
        constructor
        · tauto
        · rintro ⟨rfl | h1, h2⟩
          · exact absurd ha h2
          · exact ⟨h1, h2⟩
      · rw [dedupFirstAux, if_neg ha]
        simp only [List.mem_cons, ih, List.mem_cons]
        constructor
        · rintro (rfl | ⟨h1, h2⟩)
          · exact ⟨Or.inl rfl, ha⟩
          · exact ⟨Or.inr h1, fun hs => h2 (Or.inr hs)⟩
        · rintro ⟨rfl | h1, h2⟩
          · exact Or.inl rfl
          · by_cases hxa : x = a
            · exact Or.inl hxa
            · exact Or.inr ⟨h1, fun hs => (by tauto : False)⟩

lemma nodup_dedupFirstAux : ∀ (l seen : List String), (dedupFirstAux l seen).Nodup := by
  intro l
  induction l with
  | nil => intro seen; simp [dedupFirstAux]
  | cons a l ih =>
      intro seen
      by_cases ha : a ∈ seen
      · rw [dedupFirstAux, if_pos ha]; exact ih seen
      · rw [dedupFirstAux, if_neg ha]
        refine List.Nodup.cons ?_ (ih (a :: seen))
        intro hmem
        exact ((mem_dedupFirstAux l (a :: seen) a).mp hmem).2 (List.mem_cons_self a seen)

lemma mem_sessionIds (coll : List StoredEntry) (sid : String) :
    sid ∈ sessionIdsInOrder coll ↔ (∃ e ∈ coll, e.session_id = sid) ∧ sid ≠ "" := by
  unfold sessionIdsInOrder
  rw [mem_dedupFirstAux]
  simp [List.mem_filter, List.mem_map]

/-! ## Claims about the vector store -/

/-- Claim C1: session isolation of search.  First conjunct: every chunk
returned by `search_similar_chunks` carries the requested `session_id` — the
`where` filter of chromadb_store.py line 123 is applied on every search,
unconditionally, over every collection state.  Second conjunct: every entry
present after a `store_chunks` call either predates the call or is tagged
with the session id the call returns.  Third conjunct: hence a search scoped
to session `A` never returns a chunk of any other session `B`. -/
theorem c1_session_isolation :
    (∀ (embedF : String → List Int) (dist : List Int → List Int → Int)
        (coll : List StoredEntry) (q sid : String) (k : Nat) c,
        c ∈ search_similar_chunks embedF dist coll q sid k → c.session_id = sid) ∧
    (∀ (coll : List StoredEntry) (chunks : List StoreChunk) (sid : Option String)
        (fresh : String) e, e ∈ (store_chunks coll chunks sid fresh).2 →
        e ∈ coll ∨ e.session_id = (store_chunks coll chunks sid fresh).1) ∧
    (∀ (embedF : String → List Int) (dist : List Int → List Int → Int)
        (coll : List StoredEntry) (q A B : String) (k : Nat), A ≠ B →
        ∀ c ∈ search_similar_chunks embedF dist coll q A k, c.session_id ≠ B) := by
  have h1 : ∀ (embedF : String → List Int) (dist : List Int → List Int → Int)
      (coll : List StoredEntry) (q sid : String) (k : Nat) c,
      c ∈ search_similar_chunks embedF dist coll q sid k → c.session_id = sid := by
    intro embedF dist coll q sid k c hc
    simp only [search_similar_chunks] at hc
    obtain ⟨e, he, rfl⟩ := List.mem_map.mp hc
    exact mem_chroma_query he
  refine ⟨h1, ?_, ?_⟩
  · intro coll chunks sid fresh e he
    by_cases hch : chunks = []
    · subst hch
      simp only [store_chunks, if_pos rfl] at he
      exact Or.inl he
    · simp only [store_chunks, if_neg hch] at he ⊢
      rcases List.mem_append.mp he with h | h
      · exact Or.inl h
      · right
        obtain ⟨p, hp, rfl⟩ := List.mem_map.mp h
        rfl
  · intro embedF dist coll q A B k hAB c hc
    rw [h1 embedF dist coll q A k c hc]
    exact hAB

/-- Witness for C1 at a concrete input: in the two-session collection
`collAB`, a search scoped to session `"a"` returns the `"a"`-entry, whose
session id is `"a"` and not `"b"`. -/
theorem c1_session_isolation_witness :
    ("a" : String) ≠ "b" ∧
    RChunk.mk "f.js\nta" "f.js" 1 1 "code_block" "javascript" "a" 0 0 ∈
      search_similar_chunks (fun _ => []) (fun _ _ => 0) collAB "q" "a" 5 ∧
    (RChunk.mk "f.js\nta" "f.js" 1 1 "code_block" "javascript" "a" 0 0).session_id
      = "a" ∧
    (RChunk.mk "f.js\nta" "f.js" 1 1 "code_block" "javascript" "a" 0 0).session_id
      ≠ "b" :=
  ⟨by decide, by decide,
   c1_session_isolation.1 (fun _ => []) (fun _ _ => 0) collAB "q" "a" 5
     (RChunk.mk "f.js\nta" "f.js" 1 1 "code_block" "javascript" "a" 0 0) (by decide),
   c1_session_isolation.2.2 (fun _ => []) (fun _ _ => 0) collAB "q" "a" "b" 5
     (by decide)
     (RChunk.mk "f.js\nta" "f.js" 1 1 "code_block" "javascript" "a" 0 0) (by decide)⟩

/-- Claim C5 (as stated) is false at `keep_recent = 0`: Python's
`session_ids[:-keep_recent]` slice is empty when `keep_recent == 0`, so
`cleanup_old_sessions(keep_recent=0)` deletes nothing, while the claim
(N = 0, K = 1) requires all sessions of the one-session collection `[entS]`
to be deleted — session `"s"` stays queryable. -/
theorem c5_evict_counterexample :
    cleanup_old_sessions [entS] 0 = [entS] ∧
    sessionIdsInOrder [entS] = ["s"] ∧
    [entS] ≠ ([] : List StoredEntry) := by
  refine ⟨?_, ?_, ?_⟩ <;> decide

/-- Claim C5 (amended, requiring `N ≥ 1`): on a collection holding `N + K`
sessions (in creation = first-appearance order), `cleanup_old_sessions`
with `keep_recent = N` deletes exactly the chunks of the `K` oldest
sessions, and a session remains queryable (has a surviving chunk) iff it is
one of the `N` most recently created. -/
theorem c5_evict_amended (coll : List StoredEntry) (N K : Nat)
    (hlen : (sessionIdsInOrder coll).length = N + K) (hN : 1 ≤ N)
    (hsid : ∀ e ∈ coll, e.session_id ≠ "") :
    cleanup_old_sessions coll N =
      coll.filter (fun e => e.session_id ∉ (sessionIdsInOrder coll).take K) ∧
    ∀ sid, (∃ e ∈ cleanup_old_sessions coll N, e.session_id = sid) ↔
      sid ∈ (sessionIdsInOrder coll).drop K := by
  have hcoll : coll ≠ [] := by
    intro h
    subst h
    simp [sessionIdsInOrder, dedupFirstAux] at hlen
    omega
  have hmain : cleanup_old_sessions coll N =
      coll.filter fun e => e.session_id ∉ (sessionIdsInOrder coll).take K := by
    by_cases hK : K = 0
    · subst hK
      have hng : ¬ N < (sessionIdsInOrder coll).length := by omega
      simp only [cleanup_old_sessions, if_neg hcoll, if_neg hng]
      simp
    · have hguard : N < (sessionIdsInOrder coll).length := by omega
      have hNne : ¬ N = 0 := by omega
      simp only [cleanup_old_sessions, if_neg hcoll, if_pos hguard, if_neg hNne]
      rw [foldl_filter_not_mem]
      rw [show (sessionIdsInOrder coll).length - N = K from by omega]
  refine ⟨hmain, ?_⟩
  intro sid
  rw [hmain]
  constructor
  · rintro ⟨e, he, rfl⟩
    rw [List.mem_filter] at he
    obtain ⟨hecoll, hetake⟩ := he
    have hetake' : e.session_id ∉ (sessionIdsInOrder coll).take K := by
      simpa using hetake
    have hmem : e.session_id ∈ sessionIdsInOrder coll :=
      (mem_sessionIds coll e.session_id).mpr ⟨⟨e, hecoll, rfl⟩, hsid e hecoll⟩
    rw [← List.take_append_drop K (sessionIdsInOrder coll)] at hmem
    rcases List.mem_append.mp hmem with h | h
    · exact absurd h hetake'
    · exact h
  · intro hdrop
    have hmem : sid ∈ sessionIdsInOrder coll := by
      rw [← List.take_append_drop K (sessionIdsInOrder coll)]
      exact List.mem_append_right _ hdrop
    obtain ⟨⟨e, hecoll, hesid⟩, hne⟩ := (mem_sessionIds coll sid).mp hmem
    refine ⟨e, ?_, hesid⟩
    rw [List.mem_filter]
    refine ⟨hecoll, ?_⟩
    have hnodup : (sessionIdsInOrder coll).Nodup := nodup_dedupFirstAux _ []
    rw [← List.take_append_drop K (sessionIdsInOrder coll)] at hnodup
    have hdisj := (List.nodup_append.mp hnodup).2.2
    have hnottake : sid ∉ (sessionIdsInOrder coll).take K :=
      fun htake => hdisj htake hdrop
    simpa [hesid] using hnottake

/-- Witness for C5 (amended) at a concrete input: evicting to the 1 most
recent of the two sessions of `collAB` keeps exactly session `"b"`. -/
theorem c5_evict_amended_witness :
    (sessionIdsInOrder collAB).length = 1 + 1 ∧ (1 : Nat) ≤ 1 ∧
    cleanup_old_sessions collAB 1 =
      collAB.filter (fun e => e.session_id ∉ (sessionIdsInOrder collAB).take 1) ∧
    ((∃ e ∈ cleanup_old_sessions collAB 1, e.session_id = "b") ↔
      "b" ∈ (sessionIdsInOrder collAB).drop 1) :=
  ⟨by decide, by decide,
   (c5_evict_amended collAB 1 1 (by decide) (by decide) (by decide)).1,
   (c5_evict_amended collAB 1 1 (by decide) (by decide) (by decide)).2 "b"⟩

/-- Claim C10: `store_chunks` on an empty chunk list returns `""` (not a
session id, even when one is supplied) and writes nothing; on a non-empty
chunk list it returns the supplied id (Python treats a supplied `""` like
`None`), or the freshly generated uuid when none is supplied. -/
theorem c10_store_chunks_return :
    (∀ (coll : List StoredEntry) (sid : Option String) (fresh : String),
      store_chunks coll [] sid fresh = ("", coll)) ∧
    (∀ (coll : List StoredEntry) (chunks : List StoreChunk) (s fresh : String),
      chunks ≠ [] → s ≠ "" → (store_chunks coll chunks (some s) fresh).1 = s) ∧
    (∀ (coll : List StoredEntry) (chunks : List StoreChunk) (fresh : String),
      chunks ≠ [] → (store_chunks coll chunks none fresh).1 = fresh) := by
  refine ⟨fun coll sid fresh => rfl, ?_, ?_⟩
  · intro coll chunks s fresh hch hs
    simp [store_chunks, hch, hs]
  · intro coll chunks fresh hch
    simp [store_chunks, hch]

/-- Witness for C10 at concrete inputs. -/
theorem c10_store_chunks_return_witness :
    store_chunks [] [] (some "s") "u" = ("", []) ∧
    ([scA] ≠ ([] : List StoreChunk) ∧ ("s" : String) ≠ "" ∧
      (store_chunks [] [scA] (some "s") "u").1 = "s") ∧
    (store_chunks [] [scA] none "u").1 = "u" :=
  ⟨c10_store_chunks_return.1 [] (some "s") "u",
   ⟨by decide, by decide,
    c10_store_chunks_return.2.1 [] [scA] "s" "u" (by decide) (by decide)⟩,
   c10_store_chunks_return.2.2 [] [scA] "u" (by decide)⟩
